import Mathlib

/-!
Verification of the artifact-identification and layout-diffing core of
`layout_check.py` (foundry-storage-layout-inspector).

The embedding follows the source file:
* the record model `(slot, offset, label, type)` is a 4-tuple, with Python
  integers modelled as `Int`;
* `_diff_one` (lines 200-221) builds `removed`/`added` as Python sets and
  dict-based keyed maps; Python sets are modelled as `Finset`, and the dict
  comprehension `{key(e): e for e in l}` (last-seen wins) as a left fold;
  the list of moves is modelled as a `Finset` of pairs, since the Python
  `for k in set(...) & set(...)` loop iterates in unspecified hash order
  (the source only sorts the moves for display);
* the identifier filtering of `_artifact_contract_ids` (lines 112-117) and
  `_collect_layouts` (lines 136-139);
* the type-string normalisation `re.sub(r"\)\d+", ")", typ_raw)`
  (line 162) and the table fallback parser (lines 164-179);
* the `(source, name)` derivation of `_artifact_contract_ids`
  (lines 86-111).
-/

namespace LayoutCheck

/-- A storage record `(slot, offset, label, type)`, as built by
`_collect_layouts`: Python `int` slots/offsets are modelled as `Int`. -/
abbrev Record := Int × Int × String × String

/-- `_entry_key(e) = (e[2], e[3])`: the `(label, type)` pair that identifies
a variable across commits (source line 196-198). -/
def entryKey (e : Record) : String × String := (e.2.2.1, e.2.2.2)

/-- The `(slot, offset)` coordinates `(e[0], e[1])` compared by the move
detection at source line 218. -/
def coords (e : Record) : Int × Int := (e.1, e.2.1)

/-- `old_by_key = {_entry_key(e): e for e in old_}` (source line 212):
a Python dict comprehension, where a later entry overwrites an earlier one
with the same key.  `byKey l k` is the value the finished dict holds at
key `k` (`none` when `k` is absent). -/
def byKey (l : List Record) (k : String × String) : Option Record :=
  l.foldl (fun acc e => if entryKey e = k then some e else acc) none

/-- The key set of a record list: the keys of the dict built from it. -/
def keysOf (l : List Record) : Finset (String × String) :=
  (l.map entryKey).toFinset

/-- The contribution of one key `k` to the move list of `_diff_one`
(source lines 216-221): look `k` up in both dicts; when the coordinates of
the two records differ the pair `(o, n)` is a move. -/
def movePair (old_ new_ : List Record) (k : String × String) :
    Finset (Record × Record) :=
  match byKey old_ k, byKey new_ k with
  | some o, some n => if coords o ≠ coords n then {(o, n)} else ∅
  | _, _ => ∅

/-- The moves detected by `_diff_one` (source lines 215-221): for every
`(label, type)` key present in both dicts, when the two records' coordinates
differ, the pair `(old_record, new_record)` is a move.  Modelled as a
`Finset` of pairs because the Python loop walks `set(old_by_key) &
set(new_by_key)` in unspecified hash order. -/
def movedPairs (old_ new_ : List Record) : Finset (Record × Record) :=
  (keysOf old_ ∩ keysOf new_).biUnion (movePair old_ new_)

/-- `removed = set(old_) - set(new_)` (line 208) after every
`removed.discard(o)` for a move `(o, n)` (line 220). -/
def removedSet (old_ new_ : List Record) : Finset Record :=
  (old_.toFinset \ new_.toFinset) \ (movedPairs old_ new_).image Prod.fst

/-- `added = set(new_) - set(old_)` (line 209) after every
`added.discard(n)` for a move `(o, n)` (line 221). -/
def addedSet (old_ new_ : List Record) : Finset Record :=
  (new_.toFinset \ old_.toFinset) \ (movedPairs old_ new_).image Prod.snd

/-- The structured diff result of `_diff_one` for one identifier:
`removed`, `added` and the detected `moved` pairs, the state the function
holds at source line 223 just before rendering. -/
structure DiffResult where
  removed : Finset Record
  added : Finset Record
  moved : Finset (Record × Record)
deriving DecidableEq

/-- The diff `_diff_one` computes for one contract from the old and new
record lists (source lines 200-221, excluding the rendering). -/
def diffOne (old_ new_ : List Record) : DiffResult :=
  { removed := removedSet old_ new_
    added := addedSet old_ new_
    moved := movedPairs old_ new_ }

/-- The empty diff: at source line 223 `_diff_one` returns without output
exactly when `removed`, `added` and `moves` are all empty. -/
def emptyDiff : DiffResult := ⟨∅, ∅, ∅⟩

/-- A record list has no duplicate `(label, type)` keys.  The source's dict
comprehension is lossless exactly in this case (spec §4.4 step 2 calls
duplicate keys "an edge case that should not occur in well-formed input"). -/
def NodupKeys (l : List Record) : Prop := (l.map entryKey).Nodup

instance (l : List Record) : Decidable (NodupKeys l) := by
  unfold NodupKeys; infer_instance

/-! ### Basic facts about the keyed dict `byKey` -/

theorem keysOf_cons (x : Record) (xs : List Record) :
    keysOf (x :: xs) = insert (entryKey x) (keysOf xs) := by
  simp [keysOf]

theorem mem_keysOf {l : List Record} {k : String × String} :
    k ∈ keysOf l ↔ ∃ e ∈ l, entryKey e = k := by
  simp [keysOf]

/-- Folding the dict-comprehension step over `l` starting from accumulator
`a0` returns the dict value when the key occurs in `l`, else `a0`. -/
theorem byKey_foldl (k : String × String) (l : List Record) (a0 : Option Record) :
    l.foldl (fun acc e => if entryKey e = k then some e else acc) a0 =
      if k ∈ keysOf l then byKey l k else a0 := by
  induction l generalizing a0 with
  | nil => simp [keysOf, byKey]
  | cons x xs ih =>
    have hb : byKey (x :: xs) k =
        if k ∈ keysOf xs then byKey xs k
        else if entryKey x = k then some x else none := by
      simp only [byKey, List.foldl_cons]
      rw [ih]
      rfl
    simp only [List.foldl_cons]
    rw [ih, hb, keysOf_cons]
    by_cases hxs : k ∈ keysOf xs
    · simp [hxs]
    · by_cases hx : entryKey x = k
      · simp [hxs, hx]
      · have hx2 : ¬(k = entryKey x) := fun h => hx h.symm
        simp [hxs, hx, hx2]

theorem byKey_cons (x : Record) (xs : List Record) (k : String × String) :
    byKey (x :: xs) k = if k ∈ keysOf xs then byKey xs k
      else if entryKey x = k then some x else none := by
  simp only [byKey, List.foldl_cons]
  rw [byKey_foldl]
  rfl

theorem byKey_eq_none (l : List Record) (k : String × String)
    (h : k ∉ keysOf l) : byKey l k = none := by
  induction l with
  | nil => rfl
  | cons x xs ih =>
    simp only [keysOf_cons, Finset.mem_insert, not_or] at h
    rw [byKey_cons, if_neg h.2, if_neg (fun hx => h.1 hx.symm)]

theorem byKey_isSome (l : List Record) (k : String × String)
    (h : k ∈ keysOf l) : ∃ e, byKey l k = some e := by
  induction l with
  | nil => simp [keysOf] at h
  | cons x xs ih =>
    rw [byKey_cons]
    by_cases hxs : k ∈ keysOf xs
    · rw [if_pos hxs]; exact ih hxs
    · rw [if_neg hxs]
      have hx : entryKey x = k := by
        simp only [keysOf_cons, Finset.mem_insert] at h
        rcases h with h | h
        · exact h.symm
        · exact absurd h hxs
      rw [if_pos hx]; exact ⟨x, rfl⟩

theorem byKey_some_mem {l : List Record} {k : String × String} {e : Record}
    (h : byKey l k = some e) : e ∈ l ∧ entryKey e = k := by
  induction l with
  | nil => simp [byKey] at h
  | cons x xs ih =>
    rw [byKey_cons] at h
    by_cases hxs : k ∈ keysOf xs
    · rw [if_pos hxs] at h
      obtain ⟨h1, h2⟩ := ih h
      exact ⟨List.mem_cons_of_mem _ h1, h2⟩
    · rw [if_neg hxs] at h
      by_cases hx : entryKey x = k
      · rw [if_pos hx] at h
        injection h with h'
        subst h'
        exact ⟨List.mem_cons_self _ _, hx⟩
      · rw [if_neg hx] at h
        exact absurd h (by simp)

theorem mem_keysOf_of_byKey {l : List Record} {k : String × String}
    {e : Record} (h : byKey l k = some e) : k ∈ keysOf l := by
  by_contra hk
  rw [byKey_eq_none l k hk] at h
  exact Option.noConfusion h

/-- Under `NodupKeys` the dict lookup at a member's key returns that very
member. -/
theorem byKey_self_of_nodup {l : List Record} (hnd : NodupKeys l)
    {e : Record} (he : e ∈ l) : byKey l (entryKey e) = some e := by
  induction l with
  | nil => cases he
  | cons x xs ih =>
    unfold NodupKeys at hnd
    simp only [List.map_cons, List.nodup_cons] at hnd
    obtain ⟨hx, hxs⟩ := hnd
    rcases List.mem_cons.mp he with rfl | he'
    · rw [byKey_cons]
      have hnotin : entryKey e ∉ keysOf xs := by
        simpa [keysOf] using hx
      rw [if_neg hnotin, if_pos rfl]
    · rw [byKey_cons]
      have hk : entryKey e ∈ keysOf xs :=
        mem_keysOf.mpr ⟨e, he', rfl⟩
      rw [if_pos hk]
      exact ih hxs he'

theorem nodupKeys_of_perm {A B : List Record} (hnd : NodupKeys A)
    (hp : A.Perm B) : NodupKeys B := by
  unfold NodupKeys at hnd ⊢
  exact ((hp.map entryKey).nodup_iff).mp hnd

theorem keysOf_perm {A B : List Record} (hp : A.Perm B) :
    keysOf A = keysOf B :=
  List.toFinset_eq_of_perm _ _ (hp.map entryKey)

/-- Under `NodupKeys`, permuting the record list does not change the dict:
every key has a unique record. -/
theorem byKey_perm {A B : List Record} (hnd : NodupKeys A) (hp : A.Perm B)
    (k : String × String) : byKey A k = byKey B k := by
  by_cases hk : k ∈ keysOf A
  · obtain ⟨e, he⟩ := byKey_isSome A k hk
    obtain ⟨hmem, hkey⟩ := byKey_some_mem he
    rw [he, ← hkey]
    exact (byKey_self_of_nodup (nodupKeys_of_perm hnd hp)
      (hp.mem_iff.mp hmem)).symm
  · rw [byKey_eq_none A k hk,
      byKey_eq_none B k (by rwa [← keysOf_perm hp])]

/-! ### Membership in the move set -/

theorem mem_movePair {A B : List Record} {k : String × String}
    {p : Record × Record} :
    p ∈ movePair A B k ↔ ∃ o n, byKey A k = some o ∧ byKey B k = some n ∧
      coords o ≠ coords n ∧ p = (o, n) := by
  unfold movePair
  cases hA : byKey A k with
  | none => simp
  | some o =>
    cases hB : byKey B k with
    | none => simp
    | some n =>
      by_cases hc : coords o ≠ coords n
      · simp [if_pos hc, hc]
      · simp [if_neg hc, hc]

theorem mem_movedPairs {A B : List Record} {p : Record × Record} :
    p ∈ movedPairs A B ↔ ∃ k, byKey A k = some p.1 ∧ byKey B k = some p.2 ∧
      coords p.1 ≠ coords p.2 := by
  unfold movedPairs
  rw [Finset.mem_biUnion]
  constructor
  · rintro ⟨k, _, hp⟩
    rw [mem_movePair] at hp
    obtain ⟨o, n, hA, hB, hc, rfl⟩ := hp
    exact ⟨k, hA, hB, hc⟩
  · rintro ⟨k, hA, hB, hc⟩
    refine ⟨k, Finset.mem_inter.mpr
      ⟨mem_keysOf_of_byKey hA, mem_keysOf_of_byKey hB⟩, ?_⟩
    rw [mem_movePair]
    exact ⟨p.1, p.2, hA, hB, hc, rfl⟩

/-- Two records agreeing on coordinates and key are equal. -/
theorem record_ext {a b : Record} (hc : coords a = coords b)
    (hk : entryKey a = entryKey b) : a = b := by
  obtain ⟨a1, a2, a3, a4⟩ := a
  obtain ⟨b1, b2, b3, b4⟩ := b
  simp only [coords, entryKey, Prod.mk.injEq] at hc hk
  simp [hc.1, hc.2, hk.1, hk.2]

/-- Swapping the argument lists of the move detection reverses every pair. -/
theorem movedPairs_swap (A B : List Record) :
    movedPairs B A = (movedPairs A B).image Prod.swap := by
  ext p
  rw [Finset.mem_image]
  constructor
  · intro hp
    rw [mem_movedPairs] at hp
    obtain ⟨k, h1, h2, hc⟩ := hp
    refine ⟨(p.2, p.1), ?_, rfl⟩
    rw [mem_movedPairs]
    exact ⟨k, h2, h1, fun h => hc h.symm⟩
  · rintro ⟨q, hq, rfl⟩
    rw [mem_movedPairs] at hq ⊢
    obtain ⟨k, h1, h2, hc⟩ := hq
    exact ⟨k, h2, h1, fun h => hc h.symm⟩

/-! ### Claim theorems on the diff engine -/

/-- C1: when the old and new record lists share no `(label, type)` key,
`_diff_one` reports `removed` = the set of old records, `added` = the set of
new records, and detects no move. -/
theorem diffOne_disjoint_keys (A B : List Record)
    (h : ∀ a ∈ A, ∀ b ∈ B, entryKey a ≠ entryKey b) :
    (diffOne A B).removed = A.toFinset ∧ (diffOne A B).added = B.toFinset ∧
      (diffOne A B).moved = ∅ := by
  have hm : movedPairs A B = ∅ := by
    ext p
    simp only [mem_movedPairs, Finset.not_mem_empty, iff_false, not_exists]
    rintro k ⟨hA, hB, -⟩
    obtain ⟨haMem, haK⟩ := byKey_some_mem hA
    obtain ⟨hbMem, hbK⟩ := byKey_some_mem hB
    exact h _ haMem _ hbMem (haK.trans hbK.symm)
  have hAB : A.toFinset \ B.toFinset = A.toFinset := by
    ext a
    simp only [Finset.mem_sdiff, List.mem_toFinset]
    exact ⟨fun ha => ha.1, fun ha => ⟨ha, fun hb => h a ha a hb rfl⟩⟩
  have hBA : B.toFinset \ A.toFinset = B.toFinset := by
    ext b
    simp only [Finset.mem_sdiff, List.mem_toFinset]
    exact ⟨fun hb => hb.1, fun hb => ⟨hb, fun ha => h b ha b hb rfl⟩⟩
  refine ⟨?_, ?_, hm⟩
  · show removedSet A B = A.toFinset
    unfold removedSet
    rw [hm, Finset.image_empty, Finset.sdiff_empty, hAB]
  · show addedSet A B = B.toFinset
    unfold addedSet
    rw [hm, Finset.image_empty, Finset.sdiff_empty, hBA]

/-- Witness for the C1 theorem: two concrete one-record lists with different
keys. -/
theorem diffOne_disjoint_keys_witness :
    (diffOne [((0:Int), (0:Int), "x", "t")] [((1:Int), (0:Int), "y", "u")]).removed
        = [((0:Int), (0:Int), "x", "t")].toFinset ∧
      (diffOne [((0:Int), (0:Int), "x", "t")] [((1:Int), (0:Int), "y", "u")]).added
        = [((1:Int), (0:Int), "y", "u")].toFinset ∧
      (diffOne [((0:Int), (0:Int), "x", "t")] [((1:Int), (0:Int), "y", "u")]).moved
        = ∅ :=
  diffOne_disjoint_keys _ _ (by decide)

/-- C3 counterexample: a two-record list whose records share one
`(label, type)` key, diffed against its own reversal, yields a NONEMPTY
moved list — the two last-seen-wins dicts pick different representatives of
the duplicated key — refuting the claim that diffing a list against any of
its permutations yields an empty result. -/
theorem diffOne_perm_counterexample :
    ([((0:Int), (0:Int), "x", "t"), ((1:Int), (0:Int), "x", "t")] :
        List Record).Perm
      [((1:Int), (0:Int), "x", "t"), ((0:Int), (0:Int), "x", "t")] ∧
    (diffOne [((0:Int), (0:Int), "x", "t"), ((1:Int), (0:Int), "x", "t")]
      [((1:Int), (0:Int), "x", "t"), ((0:Int), (0:Int), "x", "t")]).moved
        ≠ ∅ := by
  decide

/-- C3 amended: for a record list whose `(label, type)` keys are pairwise
distinct, diffing it against any permutation of it yields the empty diff
(empty removed, added and moved). -/
theorem diffOne_perm_empty (A B : List Record) (hp : A.Perm B)
    (hnd : NodupKeys A) : diffOne A B = emptyDiff := by
  have hm : movedPairs A B = ∅ := by
    ext p
    simp only [mem_movedPairs, Finset.not_mem_empty, iff_false, not_exists]
    rintro k ⟨hA, hB, hc⟩
    rw [byKey_perm hnd hp k] at hA
    rw [hA] at hB
    injection hB with h
    exact hc (by rw [h])
  have ht : A.toFinset = B.toFinset := List.toFinset_eq_of_perm _ _ hp
  unfold diffOne removedSet addedSet emptyDiff
  rw [hm, ht]
  simp

/-- Witness for the amended C3 theorem: a concrete two-record list with
distinct keys against its reversal. -/
theorem diffOne_perm_empty_witness :
    diffOne [((0:Int), (0:Int), "x", "t"), ((1:Int), (0:Int), "y", "u")]
      [((1:Int), (0:Int), "y", "u"), ((0:Int), (0:Int), "x", "t")]
        = emptyDiff :=
  diffOne_perm_empty _ _ (by decide) (by decide)

/-- C4 counterexample: with a duplicated `(label, type)` key in the old
list, the removed set of `_diff_one` keeps a record whose key does have a
counterpart record in the new list, refuting the claim's invariant as
stated for arbitrary lists. -/
theorem diffOne_invariant_counterexample :
    (((0:Int), (0:Int), "x", "t") : Record) ∈
      (diffOne [((0:Int), (0:Int), "x", "t"), ((1:Int), (0:Int), "x", "t")]
        [((1:Int), (0:Int), "x", "t")]).removed ∧
    entryKey (((0:Int), (0:Int), "x", "t") : Record) ∈
      keysOf [((1:Int), (0:Int), "x", "t")] := by
  decide

/-- C4 amended: when the `(label, type)` keys within each list are pairwise
distinct, no record of a moved pair appears in removed or added, and every
removed (resp. added) record's key has no counterpart in the other list. -/
theorem diffOne_invariant (A B : List Record) (hA : NodupKeys A)
    (hB : NodupKeys B) :
    (∀ p ∈ (diffOne A B).moved,
        p.1 ∉ (diffOne A B).removed ∧ p.1 ∉ (diffOne A B).added ∧
        p.2 ∉ (diffOne A B).removed ∧ p.2 ∉ (diffOne A B).added) ∧
    (∀ r ∈ (diffOne A B).removed, entryKey r ∉ keysOf B) ∧
    (∀ r ∈ (diffOne A B).added, entryKey r ∉ keysOf A) := by
  refine ⟨?_, ?_, ?_⟩
  · intro p hp
    have hp' := hp
    rw [show (diffOne A B).moved = movedPairs A B from rfl,
      mem_movedPairs] at hp'
    obtain ⟨k, h1, h2, hc⟩ := hp'
    have hmemA : p.1 ∈ A := (byKey_some_mem h1).1
    have hmemB : p.2 ∈ B := (byKey_some_mem h2).1
    refine ⟨?_, ?_, ?_, ?_⟩
    · intro hr
      exact (Finset.mem_sdiff.mp hr).2 (Finset.mem_image.mpr ⟨p, hp, rfl⟩)
    · intro hr
      exact (Finset.mem_sdiff.mp (Finset.mem_sdiff.mp hr).1).2
        (List.mem_toFinset.mpr hmemA)
    · intro hr
      exact (Finset.mem_sdiff.mp (Finset.mem_sdiff.mp hr).1).2
        (List.mem_toFinset.mpr hmemB)
    · intro hr
      exact (Finset.mem_sdiff.mp hr).2 (Finset.mem_image.mpr ⟨p, hp, rfl⟩)
  · intro r hr hk
    have hr' := Finset.mem_sdiff.mp hr
    have hrA : r ∈ A := List.mem_toFinset.mp (Finset.mem_sdiff.mp hr'.1).1
    have hrB : r ∉ B.toFinset := (Finset.mem_sdiff.mp hr'.1).2
    obtain ⟨b, hb⟩ := byKey_isSome B (entryKey r) hk
    have hself : byKey A (entryKey r) = some r := byKey_self_of_nodup hA hrA
    by_cases hc : coords r = coords b
    · have hkb : entryKey b = entryKey r := (byKey_some_mem hb).2
      have heq : r = b := record_ext hc hkb.symm
      apply hrB
      rw [heq]
      exact List.mem_toFinset.mpr (byKey_some_mem hb).1
    · apply hr'.2
      apply Finset.mem_image.mpr
      refine ⟨(r, b), ?_, rfl⟩
      rw [mem_movedPairs]
      exact ⟨entryKey r, hself, hb, hc⟩
  · intro r hr hk
    have hr' := Finset.mem_sdiff.mp hr
    have hrB : r ∈ B := List.mem_toFinset.mp (Finset.mem_sdiff.mp hr'.1).1
    have hrA : r ∉ A.toFinset := (Finset.mem_sdiff.mp hr'.1).2
    obtain ⟨a, ha⟩ := byKey_isSome A (entryKey r) hk
    have hself : byKey B (entryKey r) = some r := byKey_self_of_nodup hB hrB
    by_cases hc : coords a = coords r
    · have hka : entryKey a = entryKey r := (byKey_some_mem ha).2
      have heq : a = r := record_ext hc hka
      apply hrA
      rw [← heq]
      exact List.mem_toFinset.mpr (byKey_some_mem ha).1
    · apply hr'.2
      apply Finset.mem_image.mpr
      refine ⟨(a, r), ?_, rfl⟩
      rw [mem_movedPairs]
      exact ⟨entryKey r, ha, hself, hc⟩

/-- Witness for the amended C4 theorem: the detected move of the concrete
one-record lists is absent from removed and added. -/
theorem diffOne_invariant_witness :
    (((1:Int), (0:Int), "x", "t") : Record) ∉
        (diffOne [((1:Int), (0:Int), "x", "t")]
          [((2:Int), (0:Int), "x", "t")]).removed ∧
      (((1:Int), (0:Int), "x", "t") : Record) ∉
        (diffOne [((1:Int), (0:Int), "x", "t")]
          [((2:Int), (0:Int), "x", "t")]).added ∧
      (((2:Int), (0:Int), "x", "t") : Record) ∉
        (diffOne [((1:Int), (0:Int), "x", "t")]
          [((2:Int), (0:Int), "x", "t")]).removed ∧
      (((2:Int), (0:Int), "x", "t") : Record) ∉
        (diffOne [((1:Int), (0:Int), "x", "t")]
          [((2:Int), (0:Int), "x", "t")]).added :=
  (diffOne_invariant _ _ (by decide) (by decide)).1
    (((1:Int), (0:Int), "x", "t"), ((2:Int), (0:Int), "x", "t")) (by decide)

/-- C6: old record `(1, 0, "x", "uint256")` against new record
`(2, 0, "x", "uint256")` yields exactly the single move between them and
empty removed/added sets. -/
theorem diffOne_move_example :
    diffOne [((1:Int), (0:Int), "x", "uint256")]
      [((2:Int), (0:Int), "x", "uint256")] =
      ⟨∅, ∅, {(((1:Int), (0:Int), "x", "uint256"),
               ((2:Int), (0:Int), "x", "uint256"))}⟩ := by
  decide

/-- C9: diffing any record list against itself yields the empty diff result
(removed, added and moved all empty), so for every identifier of a snapshot
diffed against itself `_diff_one` produces no visible output. -/
theorem diffOne_self_empty (A : List Record) : diffOne A A = emptyDiff := by
  have hm : movedPairs A A = ∅ := by
    ext p
    simp only [mem_movedPairs, Finset.not_mem_empty, iff_false, not_exists]
    rintro k ⟨hA, hB, hc⟩
    rw [hA] at hB
    injection hB with h
    exact hc (by rw [h])
  unfold diffOne removedSet addedSet emptyDiff
  rw [hm]
  simp

/-- C10: swapping the two inputs of `_diff_one` swaps the removed and added
sets and reverses every moved pair. -/
theorem diffOne_antisym (A B : List Record) :
    (diffOne B A).removed = (diffOne A B).added ∧
    (diffOne B A).added = (diffOne A B).removed ∧
    (diffOne B A).moved = (diffOne A B).moved.image Prod.swap := by
  refine ⟨?_, ?_, movedPairs_swap A B⟩
  · show removedSet B A = addedSet A B
    unfold removedSet addedSet
    rw [movedPairs_swap A B, Finset.image_image]
    rfl
  · show addedSet B A = removedSet A B
    unfold removedSet addedSet
    rw [movedPairs_swap A B, Finset.image_image]
    rfl

/-! ### Layout normalizer: type-string normalisation (source line 162)

The structured branch of `_collect_layouts` builds each record's type as
`typ = re.sub(r"\)\d+", ")", typ_raw)` — the source comment reads
"remove all ')<digits>' sequences globally". -/

/-- Shallow embedding of `re.sub(r"\)\d+", ")", s)` on the character list:
scan left to right; after emitting a `')'` the maximal following run of
decimal digits is dropped (the regex consumes `')'` plus one or more
digits, replaces the match by `')'` and continues after it; with zero
digits it does not match, and dropping nothing coincides).  The flag says
whether the scanner sits right after an emitted `')'` (or inside its digit
run).  `\d` is modelled as the ASCII digits, the only digits solc type
identifiers contain. -/
def stripGo (afterParen : Bool) : List Char → List Char
  | [] => []
  | c :: rest =>
    if afterParen && c.isDigit then stripGo true rest
    else if c = ')' then ')' :: stripGo true rest
    else c :: stripGo false rest

/-- The scanner state after processing a character list. -/
def stripSt (st : Bool) : List Char → Bool
  | [] => st
  | c :: rest =>
    if st && c.isDigit then stripSt true rest
    else if c = ')' then stripSt true rest
    else stripSt false rest

/-- `typ = re.sub(r"\)\d+", ")", typ_raw)` (source lines 161-162). -/
def normalizeType (s : String) : String := ⟨stripGo false s.data⟩

/-- The head of the character list, if any, is not a digit (a decidable
side condition marking a match boundary of the regex). -/
def headNotDigit (l : List Char) : Bool :=
  l.head?.all (fun c => !c.isDigit)

theorem stripGo_true_eq_false {l : List Char}
    (h : headNotDigit l = true) : stripGo true l = stripGo false l := by
  cases l with
  | nil => rfl
  | cons c rest =>
    have hc : c.isDigit = false := by
      simpa [headNotDigit] using h
    simp [stripGo, hc]

theorem stripGo_append (st : Bool) (xs ys : List Char) :
    stripGo st (xs ++ ys) = stripGo st xs ++ stripGo (stripSt st xs) ys := by
  induction xs generalizing st with
  | nil => rfl
  | cons c xs ih =>
    simp only [List.cons_append, stripGo, stripSt]
    by_cases h1 : st && c.isDigit
    · simp [h1, ih]
    · by_cases h2 : c = ')'
      · simp [h1, h2, ih]
      · simp [h1, h2, ih]

theorem stripGo_digits {ds : List Char} (h : ds.all Char.isDigit = true) :
    stripGo true ds = [] ∧ stripSt true ds = true := by
  induction ds with
  | nil => exact ⟨rfl, rfl⟩
  | cons c ds ih =>
    rw [List.all_cons, Bool.and_eq_true] at h
    have ih' := ih h.2
    constructor
    · simp [stripGo, h.1, ih'.1]
    · simp [stripSt, h.1, ih'.2]

/-- C5 counterexample: on the realistic type string
`"t_struct(S)33_storage"` the `)<digits>` sequence is NOT at the end of the
string, so the claim ("a trailing suffix is collapsed and no other part is
altered") predicts the string stays unchanged; the code's global
`re.sub(r"\)\d+", ")")` collapses it anyway. -/
theorem normalizeType_counterexample :
    normalizeType "t_struct(S)33_storage" = "t_struct(S)_storage" ∧
      normalizeType "t_struct(S)33_storage" ≠ "t_struct(S)33_storage" := by
  decide

/-- C5 amended: EVERY occurrence of `')'` followed by a nonempty maximal
digit run is collapsed to `')'`, anywhere in the type string, and the
surrounding parts are processed independently; a string with no `')'`
immediately followed by a digit is returned unaltered. -/
theorem normalizeType_global :
    (∀ a ds b : List Char, ds ≠ [] → ds.all Char.isDigit = true →
        headNotDigit b = true →
        stripGo false (a ++ ')' :: (ds ++ b)) =
          stripGo false a ++ ')' :: stripGo false b) ∧
    (∀ s : List Char,
        s.Chain' (fun x y => ¬(x = ')' ∧ y.isDigit = true)) →
        stripGo false s = s) := by
  constructor
  · intro a ds b _ hds hb
    rw [stripGo_append false a (')' :: (ds ++ b))]
    congr 1
    have hpd : (')' : Char).isDigit = false := by decide
    have h1 : ∀ st : Bool, stripGo st (')' :: (ds ++ b)) =
        ')' :: stripGo true (ds ++ b) := by
      intro st
      simp [stripGo, hpd]
    rw [h1, stripGo_append true ds b, (stripGo_digits hds).1,
      (stripGo_digits hds).2, List.nil_append,
      stripGo_true_eq_false hb]
  · intro s
    induction s with
    | nil => intro _; rfl
    | cons c rest ih =>
      intro hs
      rw [List.chain'_cons'] at hs
      obtain ⟨h1, h2⟩ := hs
      by_cases hc : c = ')'
      · subst hc
        have hrest : headNotDigit rest = true := by
          cases rest with
          | nil => rfl
          | cons d rest' =>
            have hd := h1 d rfl
            have hdd : d.isDigit = false :=
              Bool.eq_false_iff.mpr (fun h => hd ⟨rfl, h⟩)
            simp [headNotDigit, hdd]
        have hstep : stripGo false (')' :: rest) = ')' :: stripGo true rest := by
          simp [stripGo]
        rw [hstep, stripGo_true_eq_false hrest, ih h2]
      · have hstep : stripGo false (c :: rest) = c :: stripGo false rest := by
          simp [stripGo, hc]
        rw [hstep, ih h2]

/-- Witness for the amended C5 theorem at the concrete decomposition of
`"t_struct(S)33_storage"`. -/
theorem normalizeType_global_witness :
    stripGo false ("t_struct(S".data ++ ')' :: ("33".data ++ "_storage".data)) =
      stripGo false "t_struct(S".data ++ ')' :: stripGo false "_storage".data :=
  normalizeType_global.1 "t_struct(S".data "33".data "_storage".data
    (by decide) (by decide) (by decide)

/-! ### Layout normalizer: table fallback (source lines 164-179)

The Python `str` operations are embedded as structural functions on the
character list `String.data` (the built-in `String.splitOn`, `trim`,
`startsWith` and `toInt?` are defined by well-founded recursion on byte
positions, which the kernel cannot evaluate). -/

/-- Python `s.split(sep)` for a one-character separator: split on every
occurrence, keeping empty parts, never dropping the (possibly empty) first
and last part. -/
def splitOnChar (sep : Char) : List Char → List (List Char)
  | [] => [[]]
  | c :: rest =>
    match splitOnChar sep rest with
    | [] => [[]]
    | cur :: done => if c = sep then [] :: cur :: done else (c :: cur) :: done

/-- Python `s.strip()`: drop leading and trailing whitespace. -/
def trimChars (l : List Char) : List Char :=
  ((l.dropWhile Char.isWhitespace).reverse.dropWhile Char.isWhitespace).reverse

/-- The numeric value of a run of decimal digit characters. -/
def digitsVal (l : List Char) : Nat :=
  l.foldl (fun n c => n * 10 + (c.toNat - Char.toNat '0')) 0

/-- Python `int(s)` on an already-stripped cell: an optional sign followed
by a nonempty run of decimal digits; everything else raises `ValueError`
(modelled as `none`).  Underscore digit separators and non-ASCII digits,
which Python would also accept, do not occur in the inspector's table
output and are not modelled. -/
def parseIntChars : List Char → Option Int
  | '-' :: rest =>
    if rest ≠ [] ∧ rest.all Char.isDigit then some (-(digitsVal rest : Int))
    else none
  | '+' :: rest =>
    if rest ≠ [] ∧ rest.all Char.isDigit then some (digitsVal rest : Int)
    else none
  | l =>
    if l ≠ [] ∧ l.all Char.isDigit then some (digitsVal l : Int) else none

/-- Python `s.lower()` (ASCII case folding, as in the header check). -/
def pyLower (s : String) : String := ⟨s.data.map Char.toLower⟩

/-- Python `s.startswith(pre)`. -/
def pyStartsWith (s pre : String) : Bool := pre.data.isPrefixOf s.data

/-- The trimmed inner cells of one table row:
`cols = [c.strip() for c in line.strip().split("|")[1:-1]]`
(source line 170). -/
def tableCols (line : String) : List String :=
  (((splitOnChar '|' (trimChars line.data)).drop 1).dropLast).map
    (fun c => ⟨trimChars c⟩)

/-- One iteration of the fallback table parser (source lines 167-179):
lines not starting with `"|"` are skipped; so are rows with fewer than
five cells, rows whose lower-cased first cell is `"variable"` or empty,
and rows whose slot (cell 2) or offset (cell 3) fails integer parsing;
otherwise the record is `(slot, offset, label, type)` with label from
cell 0 and type from cell 1. -/
def parseTableLine (line : String) : Option Record :=
  if !pyStartsWith line "|" then none
  else
    let cols := tableCols line
    if cols.length < 5 then none
    else if pyLower (cols.getD 0 "") = "variable" ∨
        pyLower (cols.getD 0 "") = "" then none
    else
      (parseIntChars (cols.getD 2 "").data).bind (fun slot =>
        (parseIntChars (cols.getD 3 "").data).bind (fun offset =>
          some (slot, offset, cols.getD 0 "", cols.getD 1 "")))

/-- The whole fallback parse: every line contributes its parsed row, in
order (the `entries.append` loop of source lines 167-179). -/
def parseTable (lines : List String) : List Record :=
  lines.filterMap parseTableLine

/-- C8: the concrete row `"| x | uint256 | 3 | 0 | 32 |"` parses to
`(3, 0, "x", "uint256")`; lines not starting with `"|"` are never rows;
and every parsed row came from a line starting with `"|"` with at least
five cells, a non-header nonempty first cell, integer slot and offset
cells 2 and 3, and label/type from cells 0 and 1. -/
theorem parseTableLine_spec :
    parseTableLine "| x | uint256 | 3 | 0 | 32 |" =
        some ((3:Int), (0:Int), "x", "uint256") ∧
      (∀ line : String, pyStartsWith line "|" = false →
        parseTableLine line = none) ∧
      (∀ line : String, ∀ r : Record, parseTableLine line = some r →
        pyStartsWith line "|" = true ∧
        5 ≤ (tableCols line).length ∧
        pyLower ((tableCols line).getD 0 "") ≠ "variable" ∧
        (tableCols line).getD 0 "" ≠ "" ∧
        parseIntChars ((tableCols line).getD 2 "").data = some r.1 ∧
        parseIntChars ((tableCols line).getD 3 "").data = some r.2.1 ∧
        (tableCols line).getD 0 "" = r.2.2.1 ∧
        (tableCols line).getD 1 "" = r.2.2.2) := by
  refine ⟨by decide, ?_, ?_⟩
  · intro line h
    unfold parseTableLine
    rw [h]
    rfl
  · intro line r h
    unfold parseTableLine at h
    cases h0 : pyStartsWith line "|" with
    | false =>
      rw [h0] at h
      simp at h
    | true =>
      rw [h0] at h
      simp only [Bool.not_true, Bool.false_eq_true, if_false] at h
      refine ⟨rfl, ?_⟩
      split at h
      · exact Option.noConfusion h
      next h5 =>
        split at h
        · exact Option.noConfusion h
        next hv =>
          push_neg at hv
          obtain ⟨hv1, hv2⟩ := hv
          rw [Option.bind_eq_some] at h
          obtain ⟨slot, hslot, h⟩ := h
          rw [Option.bind_eq_some] at h
          obtain ⟨offset, hoffset, h⟩ := h
          injection h with h
          subst h
          refine ⟨not_lt.mp h5, hv1, ?_, hslot, hoffset, rfl, rfl⟩
          intro he
          exact hv2 (by rw [he]; rfl)

/-- Witness for the C8 theorem: a line not starting with a bar is not a
row. -/
theorem parseTableLine_spec_witness :
    parseTableLine "x | y" = none :=
  parseTableLine_spec.2.1 "x | y" (by decide)

/-! ### Artifact identifier filtering (source lines 56-57, 112-119,
136-139) -/

/-- `_IGNORE_PREFIXES = ("lib/", "test/", "script/")` (source line 57). -/
def ignorePrefixesList : List String := ["lib/", "test/", "script/"]

/-- The unconditional ignore test of `_artifact_contract_ids` (source
line 113): `any(ident.startswith(p) for p in _IGNORE_PREFIXES)`. -/
def ignoredIdent (ident : String) : Bool :=
  ignorePrefixesList.any (fun p => pyStartsWith ident p)

/-- The `seen`-set deduplication loop of `_artifact_contract_ids` (source
lines 115-117): keep the first occurrence of each identifier. -/
def dedupSeen (seen : List String) : List String → List String
  | [] => []
  | i :: rest =>
    if i ∈ seen then dedupSeen seen rest
    else i :: dedupSeen (i :: seen) rest

/-- The filtering and deduplication stage of `_artifact_contract_ids`
(source lines 112-119), applied to the `(source, name)`-resolved
identifiers in scan order.  The ignore-prefix filter is UNCONDITIONAL:
the function has no parameter through which an include-path filter could
reach it. -/
def artifactContractIds (resolved : List String) : List String :=
  dedupSeen [] (resolved.filter (fun i => !ignoredIdent i))

/-- The per-revision identifier selection of `_collect_layouts` (source
lines 135-139): the list from `_artifact_contract_ids`, narrowed — only
when `include_paths` is truthy, i.e. nonempty — to the identifiers
starting with one of the include prefixes. -/
def selectIdents (resolved : List String) (include_paths : List String) :
    List String :=
  let all_idents := artifactContractIds resolved
  if include_paths.isEmpty then all_idents
  else all_idents.filter (fun i =>
    include_paths.any (fun p => pyStartsWith i p))

/-- C2 evidence: the resolved identifier `"test/Foo.t.sol:FooTest"` is
excluded from the default identifier list (the claim's first half holds),
but supplying the include-path filter `["test/"]` does NOT restore it —
`_artifact_contract_ids` drops ignore-prefixed identifiers before
`_collect_layouts` applies the include filter, which can only narrow the
list further.  This contradicts the claim's second half and the code's
own comment "Skip external libraries / tests / scripts unless explicitly
requested".  The third conjunct shows a non-ignored identifier passing,
so the exclusion is genuinely prefix-based. -/
theorem identFilter_code_behavior :
    selectIdents ["test/Foo.t.sol:FooTest"] [] = [] ∧
      selectIdents ["test/Foo.t.sol:FooTest"] ["test/"] = [] ∧
      selectIdents ["src/Foo.sol:Foo", "test/Foo.t.sol:FooTest"] [] =
        ["src/Foo.sol:Foo"] := by
  decide

/-! ### Artifact identifier resolution (source lines 86-111) -/

/-- The data of one artifact JSON file that the `(source, name)` resolution
of `_artifact_contract_ids` consults.  Absent JSON keys are `none`; a
present but empty string is `some ""` (falsy in Python).
`compilationTarget` holds the entries of
`metadata.settings.compilationTarget` in insertion order; it is `none`
when the artifact has no metadata blob or its parse raised (the code then
keeps "any legacy data we already grabbed"), and `some []` for an empty
target map (falsy, also ignored).  `parentIsSol` is
`art.parent.name.endswith(".sol")`, `parentPath` is
`Path(*art.parent.parts[1:]).as_posix()`, and `stem` is `art.stem`. -/
structure ArtifactMeta where
  sourcePath : Option String
  sourceName : Option String
  contractName : Option String
  compilationTarget : Option (List (String × String))
  parentIsSol : Bool
  parentPath : String
  stem : String

/-- Python truthiness of an optional string: `None` and `""` are falsy. -/
def truthy : Option String → Bool
  | none => false
  | some s => !s.data.isEmpty

/-- Python `a or b` on optional strings: `a` when truthy, else `b`. -/
def pyOr (a b : Option String) : Option String :=
  if truthy a then a else b

/-- Steps 1-2 of the resolution (source lines 86-100): start from the
legacy keys `sourcePath or sourceName` and `contractName`, then let a
truthy compilation-target map override BOTH via its first entry
`next(iter(comp_target.items()))`. -/
def targetPair (m : ArtifactMeta) : Option String × Option String :=
  match m.compilationTarget with
  | some ((s, n) :: _) => (some s, some n)
  | _ => (pyOr m.sourcePath m.sourceName, m.contractName)

/-- Steps 1-3 of the resolution plus the final guard (source lines
86-109): fall back to the artifact-path-derived source when the source is
still falsy and the parent directory is named `*.sol`, fall back to the
file stem when the name is still falsy, and give up when either is still
falsy. -/
def deriveSourceName (m : ArtifactMeta) : Option (String × String) :=
  let source1 := (targetPair m).1
  let name1 := (targetPair m).2
  let source2 :=
    if !truthy source1 && m.parentIsSol then some m.parentPath else source1
  let name2 := if truthy name1 then name1 else some m.stem
  if truthy source2 && truthy name2 then
    some (source2.getD "", name2.getD "")
  else none

/-- The identifier `f"{source}:{name}"` formed at source line 111. -/
def deriveIdent (m : ArtifactMeta) : Option String :=
  (deriveSourceName m).map (fun p => p.1 ++ ":" ++ p.2)

/-- The C7 example artifact: `compilationTarget = {"src/Foo.sol": "Foo"}`
and no legacy fields. -/
def fooMeta : ArtifactMeta where
  sourcePath := none
  sourceName := none
  contractName := none
  compilationTarget := some [("src/Foo.sol", "Foo")]
  parentIsSol := true
  parentPath := "src/Foo.sol"
  stem := "Foo"

theorem truthy_of_ne {s : String} (h : s ≠ "") : truthy (some s) = true := by
  obtain ⟨l⟩ := s
  cases l with
  | nil => exact absurd rfl h
  | cons c cs => rfl

/-- C7: the example artifact with a compilation target and no legacy
fields resolves to `"src/Foo.sol:Foo"`, and for EVERY artifact whose
compilation-target map has a first entry `(s, n)` (with the nonempty
strings a real target contains), that entry alone determines
`(source, name)` — whatever the legacy fields hold, they are never
consulted. -/
theorem compilationTarget_priority (m : ArtifactMeta) (s n : String)
    (r : List (String × String))
    (hct : m.compilationTarget = some ((s, n) :: r))
    (hs : s ≠ "") (hn : n ≠ "") :
    deriveIdent fooMeta = some "src/Foo.sol:Foo" ∧
      deriveSourceName m = some (s, n) ∧
      deriveIdent m = some (s ++ ":" ++ n) := by
  have ht : targetPair m = (some s, some n) := by
    unfold targetPair
    rw [hct]
  have hsn : deriveSourceName m = some (s, n) := by
    unfold deriveSourceName
    rw [ht]
    simp [truthy_of_ne hs, truthy_of_ne hn]
  refine ⟨by decide, hsn, ?_⟩
  unfold deriveIdent
  rw [hsn]
  rfl

/-- Witness for the C7 theorem: an artifact carrying BOTH legacy fields
and a compilation target resolves from the target entry. -/
theorem compilationTarget_priority_witness :
    deriveIdent fooMeta = some "src/Foo.sol:Foo" ∧
      deriveSourceName
        { sourcePath := some "old/Legacy.sol"
          sourceName := some "old/Legacy.sol"
          contractName := some "Legacy"
          compilationTarget := some [("src/Foo.sol", "Foo")]
          parentIsSol := true
          parentPath := "old/Legacy.sol"
          stem := "Legacy" } = some ("src/Foo.sol", "Foo") ∧
      deriveIdent
        { sourcePath := some "old/Legacy.sol"
          sourceName := some "old/Legacy.sol"
          contractName := some "Legacy"
          compilationTarget := some [("src/Foo.sol", "Foo")]
          parentIsSol := true
          parentPath := "old/Legacy.sol"
          stem := "Legacy" } = some ("src/Foo.sol" ++ ":" ++ "Foo") :=
  compilationTarget_priority _ "src/Foo.sol" "Foo" [] rfl
    (by decide) (by decide)

end LayoutCheck
